import Mathlib

/-!
# Verification of the Project Pro deadline/progress core

Shallow embedding of the deadline-aggregation, progress-summary and
task-ordering logic of the Project Pro application
(`src/screens/CalendarScreen.js` revised variant, `src/screens/TasksScreen.js`,
`src/screens/ProjectsScreen.js`), together with proofs of the specified
properties.

Conventions of the embedding:
* JS `Date` values are instants: milliseconds since the Unix epoch (`Int`);
  an *invalid* `Date` (`NaN`) is `none` in an `Option Int`.
* The host timezone is modelled as a fixed offset `tz` in minutes east of
  UTC; the `getFullYear`/`getMonth`/`getDate` accessors decompose the
  instant shifted by that offset (proleptic Gregorian calendar, which is
  what ECMAScript `Date` uses).
* JS objects used as string-keyed dictionaries are association lists
  (`List (String × _)`) so that key presence, deletion and insertion order
  are observable, as they are in JS.
-/

set_option autoImplicit false

namespace ProjectPro

/-! ## Civil-calendar arithmetic (model of the host `Date` functions) -/

/-- Gregorian leap-year rule (ECMAScript `Date` uses the proleptic
Gregorian calendar). -/
def isLeap (y : Int) : Bool :=
  (y % 4 == 0 && y % 100 != 0) || y % 400 == 0

/-- Number of days in JS month index `m` (0 = January … 11 = December) of
year `y`.  This is the value of `new Date(y, m + 1, 0).getDate()`, the
idiom the source uses for the last day of the month. -/
def daysInMonth (y : Int) (m : Nat) : Nat :=
  match m with
  | 0 => 31
  | 1 => if isLeap y then 29 else 28
  | 2 => 31
  | 3 => 30
  | 4 => 31
  | 5 => 30
  | 6 => 31
  | 7 => 31
  | 8 => 30
  | 9 => 31
  | 10 => 30
  | _ => 31

/-- Days from the civil date `(y, m, d)` (month `m` is 1–12 here) to
1970-01-01, proleptic Gregorian; `d` may be out of range, matching the
normalisation ECMAScript `MakeDay` performs on the day argument. -/
def daysFromCivil (y : Int) (m : Nat) (d : Int) : Int :=
  let y' : Int := y - (if m ≤ 2 then 1 else 0)
  let era : Int := Int.fdiv y' 400
  let yoe : Nat := (y' - era * 400).toNat
  let mp : Nat := if m > 2 then m - 3 else m + 9
  let doy : Nat := (153 * mp + 2) / 5
  let doe : Nat := yoe * 365 + yoe / 4 - yoe / 100 + doy
  era * 146097 + (doe : Int) + d - 1 - 719468

/-- Inverse of `daysFromCivil`: the civil date `(year, month 1–12, day)`
of day number `z` (days since 1970-01-01).  Models the
`getFullYear`/`getMonth`/`getDate` accessors of a `Date`. -/
def civilFromDays (z : Int) : Int × Nat × Nat :=
  let z' : Int := z + 719468
  let era : Int := Int.fdiv z' 146097
  let doe : Nat := (z' - era * 146097).toNat
  let yoe : Nat := (doe - doe / 1460 + doe / 36524 - doe / 146096) / 365
  let doy : Nat := doe - (365 * yoe + yoe / 4 - yoe / 100)
  let mp : Nat := (5 * doy + 2) / 153
  let d : Nat := doy - (153 * mp + 2) / 5 + 1
  let m : Nat := if mp < 10 then mp + 3 else mp - 9
  (yoe + era * 400 + (if m ≤ 2 then 1 else 0), m, d)

/-- Model of `String(n).padStart(2, '0')`. -/
def pad2 (n : Nat) : String :=
  if n < 10 then "0" ++ toString n else toString n

/-- The local calendar day of instant `t` (ms since epoch) in a timezone
`tz` minutes east of UTC, as the day number since 1970-01-01. -/
def localDayNumber (tz t : Int) : Int :=
  Int.fdiv (t + tz * 60000) 86400000

/-- The `YYYY-MM-DD` key the revised `toDateString` builds from the LOCAL
components of the date: `` `${date.getFullYear()}-${month}-{day}` `` with
month and day zero-padded to two digits (the year is not padded, exactly
as in the template literal). -/
def localDayKey (tz t : Int) : String :=
  let c := civilFromDays (localDayNumber tz t)
  toString c.1 ++ "-" ++ pad2 c.2.1 ++ "-" ++ pad2 c.2.2

/-- The UTC day key `date.toISOString().slice(0, 10)` used by the legacy
`toDateString` in `CalendarScreen.js` (the documented prior defect):
the UTC calendar day, with the year padded to four digits as in ISO 8601. -/
def utcDayKey (t : Int) : String :=
  let c := civilFromDays (Int.fdiv t 86400000)
  let y := c.1.toNat
  let ys := toString y
  let ypad := String.mk (List.replicate (4 - ys.length) '0') ++ ys
  ypad ++ "-" ++ pad2 c.2.1 ++ "-" ++ pad2 c.2.2

/-! ## Deadline values and `toDateString` -/

/-- The runtime shapes a `deadline` field can take, per the source's
normalisation cascade: `null`/`undefined`; a native `Date` (possibly
invalid, i.e. `NaN`); a string (parsed with `new Date(string)`); a
backend-timestamp-like object carrying a `toDate()` method (Firestore
`Timestamp`, whose `toDate` always yields a valid `Date`). -/
inductive JSDeadline where
  | null : JSDeadline
  | date : Option Int → JSDeadline
  | str : String → JSDeadline
  | timestampLike : Int → JSDeadline
deriving Repr, DecidableEq

/-- Model of `new Date(string)` for the ISO date-only format
`YYYY-MM-DD`, which ECMAScript parses as UTC midnight of that day;
any other string is modelled as unparsable (`Invalid Date`). -/
def jsParseDate (s : String) : Option Int :=
  match s.toList with
  | [y1, y2, y3, y4, '-', m1, m2, '-', d1, d2] =>
    if (y1.isDigit && y2.isDigit && y3.isDigit && y4.isDigit &&
        m1.isDigit && m2.isDigit && d1.isDigit && d2.isDigit) then
      let y : Nat := (y1.toNat - 48) * 1000 + (y2.toNat - 48) * 100 +
        (y3.toNat - 48) * 10 + (y4.toNat - 48)
      let m : Nat := (m1.toNat - 48) * 10 + (m2.toNat - 48)
      let d : Nat := (d1.toNat - 48) * 10 + (d2.toNat - 48)
      if 1 ≤ m && m ≤ 12 && 1 ≤ d && d ≤ daysInMonth (y : Int) (m - 1) then
        some (86400000 * daysFromCivil (y : Int) m (d : Int))
      else none
    else none
  | _ => none

/-- The `Date` (instant) the normalisation cascade of `toDateString`
arrives at, or `none` when the final `date instanceof Date && !isNaN(date)`
guard fails:
* `null`/`undefined` are falsy, skip both branches, and are not a `Date`;
* an object with `toDate` is replaced by `date.toDate()`;
* any other truthy non-`Date` value goes through `new Date(date)`;
* a native `Date` passes through, and an invalid one fails the
  `!isNaN(date)` check. -/
def dateOfDeadline : JSDeadline → Option Int
  | .null => none
  | .date t => t
  | .str s => jsParseDate s
  | .timestampLike t => some t

/-- The revised `toDateString` (CalendarScreen, revised variant): normalise
the deadline to a `Date` and, when valid, build the `YYYY-MM-DD` key from
the LOCAL year/month/day components; otherwise return `null`. -/
def toDateString (tz : Int) (d : JSDeadline) : Option String :=
  match dateOfDeadline d with
  | some t => some (localDayKey tz t)
  | none => none

/-- The legacy `toDateString` of `CalendarScreen.js`, which keys by
`date.toISOString().slice(0, 10)` — the UTC day. -/
def toDateStringLegacy (d : JSDeadline) : Option String :=
  match dateOfDeadline d with
  | some t => some (utcDayKey t)
  | none => none

/-! ## `getMonthMatrix` -/

/-- ECMAScript quirk of the multi-argument `Date` constructor: a year
argument 0–99 is interpreted as 1900 + year. -/
def jsYear (y : Nat) : Int :=
  if y < 100 then 1900 + (y : Int) else (y : Int)

/-- Model of `new Date(year, month, 1).getDay()` — weekday index (0 = Sunday) of
the first day of the month; 1970-01-01 was a Thursday (index 4). -/
def firstWeekday (y : Nat) (m : Nat) : Nat :=
  ((daysFromCivil (jsYear y) (m + 1) 1 + 4) % 7).toNat

/-- The loop of `getMonthMatrix`: push the dates `date … date+rem-1` into
the current `week`, flushing each full week of 7 into the matrix, then pad
the trailing partial week with `null`s.  A cell `some d` stands for the
`Date` object `new Date(year, month, d)`; `none` is a `null` cell. -/
def monthGo : Nat → Nat → List (Option Nat) → List (List (Option Nat)) →
    List (List (Option Nat))
  | 0, _, week, matrix =>
    if week.isEmpty then matrix
    else matrix ++ [week ++ List.replicate (7 - week.length) none]
  | rem + 1, date, week, matrix =>
    let week' := week ++ [some date]
    if week'.length = 7 then monthGo rem (date + 1) [] (matrix ++ [week'])
    else monthGo rem (date + 1) week' matrix

/-- Embedding of `getMonthMatrix(year, month)`: the month grid, starting with
`firstDay.getDay()` leading `null` cells, then the dates 1 … `lastDay`
(`lastDay = new Date(year, month + 1, 0).getDate()`), in rows of 7,
with the last partial row padded with `null`s. -/
def getMonthMatrix (year month : Nat) : List (List (Option Nat)) :=
  monthGo (daysInMonth (jsYear year) month) 1
    (List.replicate (firstWeekday year month) none) []

/-! ## Records, entries and the date-keyed index -/

/-- A Firestore document as the screens read it: `{id, ...data}`.  One
record type serves projects and tasks (a project simply leaves the
task-only fields at their defaults). -/
structure Record where
  id : String
  title : String
  deadline : JSDeadline := .null
  completed : Bool := false
  projectId : Option String := none
  priority : Option String := none
  createdAt : Option Int := none
deriving Repr, DecidableEq

/-- The `type` tag an index entry is pushed with: `'Project'` or `'Task'`. -/
inductive EntryKind where
  | Project : EntryKind
  | Task : EntryKind
deriving Repr, DecidableEq

/-- An element of a deadline bucket: `{type, title, id, ...data}`. -/
structure Entry where
  kind : EntryKind
  id : String
  title : String
  deadline : JSDeadline
  completed : Bool
  projectId : Option String
deriving Repr, DecidableEq

/-- The entry pushed for record `r` under tag `k`. -/
def entryOf (k : EntryKind) (r : Record) : Entry :=
  { kind := k, id := r.id, title := r.title, deadline := r.deadline,
    completed := r.completed, projectId := r.projectId }

/-- A JS object keyed by date strings, `{ 'YYYY-MM-DD': [entries] }`,
as an association list in key-insertion order. -/
abbrev DIndex := List (String × List Entry)

/-- Object property read, `m[k]`: `some` bucket or `none` (`undefined`). -/
def objGet (m : DIndex) (k : String) : Option (List Entry) :=
  match m with
  | [] => none
  | (k2, v) :: rest => if k2 = k then some v else objGet rest k

/-- Embedding of `deadlines[k] ? deadlines[k] : []` — the lookup used for
`selectedDeadlines`: a missing key yields the empty list. -/
def lookupD (m : DIndex) (k : String) : List Entry :=
  match objGet m k with
  | some l => l
  | none => []

/-- Embedding of `if (!m[k]) m[k] = []; m[k].push(e)` — append one entry to a bucket,
creating the bucket (at the end, in key-insertion order) if absent. -/
def objPush (m : DIndex) (k : String) (e : Entry) : DIndex :=
  match m with
  | [] => [(k, [e])]
  | (k2, v) :: rest =>
    if k2 = k then (k2, v ++ [e]) :: rest else (k2, v) :: objPush rest k e

/-- Embedding of `if (!m[k]) m[k] = []; m[k] = [...m[k], ...l]` — append a whole list
to a bucket, creating the bucket if absent. -/
def objAppendList (m : DIndex) (k : String) (l : List Entry) : DIndex :=
  match m with
  | [] => [(k, l)]
  | (k2, v) :: rest =>
    if k2 = k then (k2, v ++ l) :: rest else (k2, v) :: objAppendList rest k l

/-- The snapshot-handler accumulation: for each record whose deadline
normalises to a date key, push its entry into that key's bucket
(`projectDeadlines` / `taskDeadlines` construction). -/
def buildBuckets (tz : Int) (k : EntryKind) (recs : List Record) : DIndex :=
  recs.foldl
    (fun m r =>
      match toDateString tz r.deadline with
      | some ds => objPush m ds (entryOf k r)
      | none => m)
    []

/-- The first half of the `setDeadlines` merge: drop every entry of kind
`K` from each bucket and delete the keys whose buckets become empty. -/
def dropKind (K : EntryKind) : DIndex → DIndex
  | [] => []
  | (k2, v) :: rest =>
    if v.filter (fun e => e.kind ≠ K) = [] then dropKind K rest
    else (k2, v.filter (fun e => e.kind ≠ K)) :: dropKind K rest

/-- The second half of the merge: append each new bucket to the index. -/
def addBuckets (nb : DIndex) (m : DIndex) : DIndex :=
  nb.foldl (fun acc p => objAppendList acc p.1 p.2) m

/-- One `setDeadlines` merge step of the revised CalendarScreen: remove
the old entries of kind `K`, delete emptied keys, then append the freshly
built buckets `nb`. -/
def mergeDeadlines (K : EntryKind) (nb : DIndex) (m : DIndex) : DIndex :=
  addBuckets nb (dropKind K m)

/-- The index after both subscription callbacks of the revised
CalendarScreen have run on the latest snapshots: the project merge
followed by the task merge (the task query carries
`where('completed', '==', false)`). -/
def rebuildIndex (tz : Int) (projects tasks : List Record) (prev : DIndex) :
    DIndex :=
  mergeDeadlines .Task
    (buildBuckets tz .Task (tasks.filter (fun t => t.completed = false)))
    (mergeDeadlines .Project (buildBuckets tz .Project projects) prev)

/-! ## Task ordering (`TasksScreen.js` comparator) -/

/-- ASCII lower-casing of one character, the effect of
`String.prototype.toLowerCase` on the priority strings. -/
def charToLower (c : Char) : Char :=
  if 'A' ≤ c ∧ c ≤ 'Z' then Char.ofNat (c.toNat + 32) else c

/-- Model of `s.toLowerCase()` (ASCII range, which covers every priority value). -/
def jsToLower (s : String) : String :=
  String.mk (s.data.map charToLower)

/-- Embedding of `priorityOrder[p?.toLowerCase()] ?? 3` with
`priorityOrder = { urgent: 0, medium: 1, low: 2 }`. -/
def priorityRank (p : Option String) : Nat :=
  match p with
  | none => 3
  | some s =>
    match jsToLower s with
    | "urgent" => 0
    | "medium" => 1
    | "low" => 2
    | _ => 3

/-- The comparator passed to `tasksData.sort`: completion status first
(incomplete before completed), then priority rank, then newest `createdAt`
first when both tasks carry one, else 0. -/
def taskCompare (a b : Record) : Int :=
  if a.completed ≠ b.completed then
    (if a.completed then 1 else -1)
  else
    let aPriority := priorityRank a.priority
    let bPriority := priorityRank b.priority
    if aPriority ≠ bPriority then (aPriority : Int) - (bPriority : Int)
    else
      match a.createdAt, b.createdAt with
      | some ta, some tb => tb - ta
      | _, _ => 0

/-- Stable comparison sort, the behaviour `Array.prototype.sort` is
specified to have: `insertSorted` places an element after every earlier
element that does not compare strictly greater. -/
def insertSorted (cmp : Record → Record → Int) (x : Record) :
    List Record → List Record
  | [] => [x]
  | y :: ys =>
    if cmp y x > 0 then x :: y :: ys else y :: insertSorted cmp x ys

/-- Embedding of `tasksData.sort(cmp)` as a stable sort. -/
def jsSort (cmp : Record → Record → Int) (l : List Record) : List Record :=
  l.foldl (fun acc x => insertSorted cmp x acc) []

/-! ## Progress calculation and summarisation -/

/-- Embedding of `Math.round((completed / total) * 100)` for `0 ≤ completed ≤ total`,
as exact rational rounding (round half up):
`⌊(100·completed/total) + 1/2⌋ = ⌊(200·completed + total) / (2·total)⌋`. -/
def roundPct (completed total : Nat) : Nat :=
  (200 * completed + total) / (2 * total)

/-- Embedding of `calculateProgress` of `TasksScreen.js`: 0 for an empty task list,
else the rounded percentage of completed tasks. -/
def calculateProgressT (tasks : List Record) : Nat :=
  if tasks.length = 0 then 0
  else roundPct (tasks.filter (fun t => t.completed)).length tasks.length

/-- A per-project summary entry: `{ total, completed }` as accumulated by
the all-tasks snapshot handler. -/
structure Summary where
  total : Nat
  completed : Nat
deriving Repr, DecidableEq

/-- The project-keyed summary object, in key-insertion order. -/
abbrev CIndex := List (String × Summary)

/-- Object property read on the summary object. -/
def objGetC (m : CIndex) (k : String) : Option Summary :=
  match m with
  | [] => none
  | (k2, v) :: rest => if k2 = k then some v else objGetC rest k

/-- One accumulation step: `counts[pid].total++` and, when the task is
completed, `counts[pid].completed++`, creating the `{total: 0, completed: 0}`
entry first when absent. -/
def bumpCount (m : CIndex) (pid : String) (completed : Bool) : CIndex :=
  match m with
  | [] => [(pid, ⟨1, if completed then 1 else 0⟩)]
  | (k2, v) :: rest =>
    if k2 = pid then
      (k2, ⟨v.total + 1, v.completed + if completed then 1 else 0⟩) :: rest
    else (k2, v) :: bumpCount rest pid completed

/-- The all-tasks snapshot accumulation (revised CalendarScreen /
ProjectsScreen): per `projectId`, count total and completed tasks; a task
with no `projectId` is skipped (`if (projectId)` guard). -/
def buildCounts (tasks : List Record) : CIndex :=
  tasks.foldl
    (fun m t =>
      match t.projectId with
      | some pid => bumpCount m pid t.completed
      | none => m)
    []

/-- Embedding of `calculateProgress(projectId)` of `ProjectsScreen.js`: 0 when the
project has no entry or no tasks, else the rounded completion
percentage. -/
def calculateProgressP (m : CIndex) (pid : String) : Nat :=
  match objGetC m pid with
  | none => 0
  | some s => if s.total = 0 then 0 else roundPct s.completed s.total

/-- The spec's `summarize`: the counts accumulation together with the
percentage computed by `calculateProgress`. -/
def summarize (tasks : List Record) (pid : String) : Summary × Nat :=
  let m := buildCounts tasks
  ((objGetC m pid).getD ⟨0, 0⟩, calculateProgressP m pid)

/-! ## Specification-side statement of the ordering rule -/

/-- The sign of a JS comparator result. -/
def ordOfInt (i : Int) : Ordering :=
  if i < 0 then .lt else if i = 0 then .eq else .gt

/-- The composite ordering rule exactly as the specification states it:
an incomplete task orders before a completed one; among equal completion
status the lower priority rank (urgent=0, medium=1, low=2, other/missing=3)
orders first; among tasks equal on both, the newer creation timestamp
orders first when both carry one, otherwise the two are unordered. -/
def specTaskOrder (a b : Record) : Ordering :=
  if a.completed = false ∧ b.completed = true then .lt
  else if a.completed = true ∧ b.completed = false then .gt
  else if priorityRank a.priority < priorityRank b.priority then .lt
  else if priorityRank b.priority < priorityRank a.priority then .gt
  else
    match a.createdAt, b.createdAt with
    | some ta, some tb => if tb < ta then .lt else if ta < tb then .gt else .eq
    | _, _ => .eq

/-! ## Concrete example data from the specification's scenarios -/

/-- Scenario task: completed, urgent. -/
def exCompletedUrgent : Record :=
  { id := "t1", title := "completed urgent", completed := true,
    priority := some "urgent" }

/-- Scenario task: incomplete, low. -/
def exIncompleteLow : Record :=
  { id := "t2", title := "incomplete low", completed := false,
    priority := some "low" }

/-- Scenario task: incomplete, urgent. -/
def exIncompleteUrgent : Record :=
  { id := "t3", title := "incomplete urgent", completed := false,
    priority := some "urgent" }

/-- Scenario task: `{projectId: 'p1', completed: true}`. -/
def exP1Done : Record :=
  { id := "s1", title := "", projectId := some "p1", completed := true }

/-- Scenario task: `{projectId: 'p1', completed: false}`. -/
def exP1Todo : Record :=
  { id := "s2", title := "", projectId := some "p1", completed := false }

/-- Sample project record with no deadline, for concrete index examples. -/
def exEntry : Entry :=
  { kind := .Project, id := "p0", title := "sample", deadline := .null,
    completed := false, projectId := none }

/-- Sample incomplete task whose deadline is the epoch instant
(local day `1970-01-01` at UTC). -/
def exTask1970 : Record :=
  { id := "t0", title := "epoch task", deadline := .date (some 0),
    completed := false, projectId := some "p1" }

/-- Sample project whose deadline is 2025-10-15T00:00Z. -/
def exProjOct : Record :=
  { id := "p2", title := "october project",
    deadline := .date (some 1760486400000) }

/-- The full shape property of a month matrix built from `fd` leading
blanks and `nd` dates: rows of 7; the non-null cells, in row-major order,
are the dates `1 … nd` ascending; `fd` leading nulls; interior rows
null-free. -/
abbrev monthMatrixOK (fd nd : Nat) : Prop :=
  (∀ row ∈ monthGo nd 1 (List.replicate fd none) [], row.length = 7) ∧
  (monthGo nd 1 (List.replicate fd none) []).join.filterMap id
    = List.range' 1 nd ∧
  ((monthGo nd 1 (List.replicate fd none) []).join.takeWhile
    (fun c => c.isNone)).length = fd ∧
  ∀ row ∈ ((monthGo nd 1 (List.replicate fd none) []).drop 1).dropLast,
    ∀ c ∈ row, c.isSome = true

/-! ## Association-list lemmas -/

theorem lookupD_eq (m : DIndex) (k : String) :
    lookupD m k = (objGet m k).getD [] := by
  unfold lookupD
  cases objGet m k <;> rfl

theorem objGet_eq_none_iff (m : DIndex) (k : String) :
    objGet m k = none ↔ k ∉ m.map Prod.fst := by
  induction m with
  | nil => simp [objGet]
  | cons p rest ih =>
    obtain ⟨k2, v⟩ := p
    by_cases h : k2 = k
    · simp [objGet, h, ih]
    · simp only [objGet, h, if_false, ih, List.map_cons, List.mem_cons]
      constructor
      · intro hk
        rintro (rfl | hmem)
        · exact h rfl
        · exact hk hmem
      · intro hk hmem
        exact hk (Or.inr hmem)

theorem objGet_objPush (m : DIndex) (k : String) (e : Entry) (k2 : String) :
    objGet (objPush m k e) k2 =
      if k = k2 then some ((objGet m k2).getD [] ++ [e]) else objGet m k2 := by
  induction m with
  | nil =>
    by_cases h : k = k2 <;> simp [objPush, objGet, h]
  | cons p rest ih =>
    obtain ⟨k3, v⟩ := p
    by_cases h3 : k3 = k
    · subst h3
      by_cases h : k3 = k2 <;> simp [objPush, objGet, h]
    · by_cases h2 : k3 = k2
      · subst h2
        have hne : ¬ k = k3 := fun hh => h3 hh.symm
        simp [objPush, objGet, h3, hne, ih]
      · simp [objPush, objGet, h3, h2, ih]

theorem lookupD_objPush (m : DIndex) (k : String) (e : Entry) (k2 : String) :
    lookupD (objPush m k e) k2 =
      if k = k2 then lookupD m k2 ++ [e] else lookupD m k2 := by
  rw [lookupD_eq, lookupD_eq, objGet_objPush]
  by_cases h : k = k2 <;> simp [h]

theorem objGet_objAppendList (m : DIndex) (k : String) (l : List Entry)
    (k2 : String) :
    objGet (objAppendList m k l) k2 =
      if k = k2 then some ((objGet m k2).getD [] ++ l) else objGet m k2 := by
  induction m with
  | nil =>
    by_cases h : k = k2 <;> simp [objAppendList, objGet, h]
  | cons p rest ih =>
    obtain ⟨k3, v⟩ := p
    by_cases h3 : k3 = k
    · subst h3
      by_cases h : k3 = k2 <;> simp [objAppendList, objGet, h]
    · by_cases h2 : k3 = k2
      · subst h2
        have hne : ¬ k = k3 := fun hh => h3 hh.symm
        simp [objAppendList, objGet, h3, hne, ih]
      · simp [objAppendList, objGet, h3, h2, ih]

theorem lookupD_objAppendList (m : DIndex) (k : String) (l : List Entry)
    (k2 : String) :
    lookupD (objAppendList m k l) k2 =
      if k = k2 then lookupD m k2 ++ l else lookupD m k2 := by
  rw [lookupD_eq, lookupD_eq, objGet_objAppendList]
  by_cases h : k = k2 <;> simp [h]

theorem keys_objAppendList (m : DIndex) (k : String) (l : List Entry) :
    (objAppendList m k l).map Prod.fst =
      if objGet m k = none then m.map Prod.fst ++ [k] else m.map Prod.fst := by
  induction m with
  | nil => simp [objAppendList, objGet]
  | cons p rest ih =>
    obtain ⟨k2, v⟩ := p
    by_cases h : k2 = k <;> simp [objAppendList, objGet, h, ih] <;>
      by_cases h2 : objGet rest k = none <;> simp [h2]

theorem keys_objPush (m : DIndex) (k : String) (e : Entry) :
    (objPush m k e).map Prod.fst =
      if objGet m k = none then m.map Prod.fst ++ [k] else m.map Prod.fst := by
  induction m with
  | nil => simp [objPush, objGet]
  | cons p rest ih =>
    obtain ⟨k2, v⟩ := p
    by_cases h : k2 = k <;> simp [objPush, objGet, h, ih] <;>
      by_cases h2 : objGet rest k = none <;> simp [h2]

theorem nodup_keys_objPush (m : DIndex) (k : String) (e : Entry)
    (h : (m.map Prod.fst).Nodup) : ((objPush m k e).map Prod.fst).Nodup := by
  rw [keys_objPush]
  by_cases h2 : objGet m k = none
  · simp only [h2, if_pos]
    refine List.Nodup.append h (List.nodup_singleton k) ?_
    intro a ha hb
    rw [List.mem_singleton] at hb
    subst hb
    exact ((objGet_eq_none_iff m a).mp h2) ha
  · simpa [h2] using h

theorem nodup_keys_objAppendList (m : DIndex) (k : String) (l : List Entry)
    (h : (m.map Prod.fst).Nodup) :
    ((objAppendList m k l).map Prod.fst).Nodup := by
  rw [keys_objAppendList]
  by_cases h2 : objGet m k = none
  · simp only [h2, if_pos]
    refine List.Nodup.append h (List.nodup_singleton k) ?_
    intro a ha hb
    rw [List.mem_singleton] at hb
    subst hb
    exact ((objGet_eq_none_iff m a).mp h2) ha
  · simpa [h2] using h

theorem lookupD_of_not_mem_keys (m : DIndex) (k : String)
    (h : k ∉ m.map Prod.fst) : lookupD m k = [] := by
  rw [lookupD_eq, (objGet_eq_none_iff m k).mpr h]
  rfl

/-! ## Bucket-construction lemmas -/

theorem lookupD_buildBuckets_go (tz : Int) (K : EntryKind)
    (recs : List Record) (m : DIndex) (k : String) :
    lookupD (recs.foldl
      (fun m r =>
        match toDateString tz r.deadline with
        | some ds => objPush m ds (entryOf K r)
        | none => m) m) k
    = lookupD m k ++
      ((recs.filter (fun r => toDateString tz r.deadline = some k)).map
        (entryOf K)) := by
  induction recs generalizing m with
  | nil => simp
  | cons r rs ih =>
    simp only [List.foldl_cons, List.filter_cons]
    cases hds : toDateString tz r.deadline with
    | none => simp [hds, ih]
    | some ds =>
      by_cases hk : ds = k
      · subst hk
        simp [hds, ih, lookupD_objPush]
      · simp [hds, hk, ih, lookupD_objPush]

/-- Bucket contents of the snapshot accumulation: the bucket of key `k`
holds exactly the entries of the records whose deadline normalises to `k`,
in source-collection order. -/
theorem lookupD_buildBuckets (tz : Int) (K : EntryKind)
    (recs : List Record) (k : String) :
    lookupD (buildBuckets tz K recs) k
    = (recs.filter (fun r => toDateString tz r.deadline = some k)).map
        (entryOf K) := by
  have h := lookupD_buildBuckets_go tz K recs [] k
  simpa [buildBuckets, lookupD, objGet] using h

theorem values_ne_nil_objPush (m : DIndex) (k : String) (e : Entry)
    (h : ∀ p ∈ m, p.2 ≠ ([] : List Entry)) :
    ∀ p ∈ objPush m k e, p.2 ≠ ([] : List Entry) := by
  induction m with
  | nil =>
    intro p hp
    rw [objPush, List.mem_singleton] at hp
    subst hp
    simp
  | cons q rest ih =>
    obtain ⟨k2, v⟩ := q
    intro p hp
    by_cases h2 : k2 = k
    · subst h2
      rw [objPush, if_pos rfl, List.mem_cons] at hp
      rcases hp with hp | hp
      · subst hp; simp
      · exact h p (List.mem_cons_of_mem _ hp)
    · rw [objPush, if_neg h2, List.mem_cons] at hp
      rcases hp with hp | hp
      · subst hp
        exact h _ (List.mem_cons_self _ _)
      · exact ih (fun q hq => h q (List.mem_cons_of_mem _ hq)) p hp

theorem values_ne_nil_buildBuckets (tz : Int) (K : EntryKind)
    (recs : List Record) :
    ∀ p ∈ buildBuckets tz K recs, p.2 ≠ ([] : List Entry) := by
  suffices hgo : ∀ (m : DIndex), (∀ p ∈ m, p.2 ≠ ([] : List Entry)) →
      ∀ p ∈ recs.foldl
        (fun m r =>
          match toDateString tz r.deadline with
          | some ds => objPush m ds (entryOf K r)
          | none => m) m, p.2 ≠ ([] : List Entry) by
    exact hgo [] (by simp)
  induction recs with
  | nil => intro m hm; simpa using hm
  | cons r rs ih =>
    intro m hm
    simp only [List.foldl_cons]
    cases hds : toDateString tz r.deadline with
    | none => exact ih m hm
    | some ds => exact ih _ (values_ne_nil_objPush m ds _ hm)

theorem nodup_keys_buildBuckets (tz : Int) (K : EntryKind)
    (recs : List Record) :
    ((buildBuckets tz K recs).map Prod.fst).Nodup := by
  suffices hgo : ∀ (m : DIndex), (m.map Prod.fst).Nodup →
      ((recs.foldl
        (fun m r =>
          match toDateString tz r.deadline with
          | some ds => objPush m ds (entryOf K r)
          | none => m) m).map Prod.fst).Nodup by
    exact hgo [] (by simp)
  induction recs with
  | nil => intro m hm; simpa using hm
  | cons r rs ih =>
    intro m hm
    simp only [List.foldl_cons]
    cases hds : toDateString tz r.deadline with
    | none => exact ih m hm
    | some ds => exact ih _ (nodup_keys_objPush m ds _ hm)

/-! ## Merge-step lemmas -/

theorem objGet_cons (k2 : String) (v : List Entry) (rest : DIndex)
    (k : String) :
    objGet ((k2, v) :: rest) k = if k2 = k then some v else objGet rest k := rfl

theorem lookupD_cons (k2 : String) (v : List Entry) (rest : DIndex)
    (k : String) :
    lookupD ((k2, v) :: rest) k = if k2 = k then v else lookupD rest k := by
  rw [lookupD_eq, objGet_cons]
  by_cases h : k2 = k
  · simp [h]
  · rw [if_neg h, if_neg h, lookupD_eq]

theorem dropKind_nil (K : EntryKind) : dropKind K [] = [] := rfl

theorem dropKind_cons (K : EntryKind) (k2 : String) (v : List Entry)
    (rest : DIndex) :
    dropKind K ((k2, v) :: rest) =
      if v.filter (fun e => e.kind ≠ K) = [] then dropKind K rest
      else (k2, v.filter (fun e => e.kind ≠ K)) :: dropKind K rest := rfl

theorem lookupD_dropKind (K : EntryKind) (m : DIndex) (k : String)
    (h : (m.map Prod.fst).Nodup) :
    lookupD (dropKind K m) k = (lookupD m k).filter (fun e => e.kind ≠ K) := by
  induction m with
  | nil => simp [dropKind_nil, lookupD, objGet]
  | cons p rest ih =>
    obtain ⟨k2, v⟩ := p
    rw [List.map_cons, List.nodup_cons] at h
    obtain ⟨hk2, hrest⟩ := h
    rw [dropKind_cons, lookupD_cons]
    by_cases hv : v.filter (fun e => e.kind ≠ K) = []
    · rw [if_pos hv]
      by_cases hk : k2 = k
      · subst hk
        rw [if_pos rfl, ih hrest,
          lookupD_of_not_mem_keys rest k2 hk2, hv]
        rfl
      · rw [if_neg hk, ih hrest]
    · rw [if_neg hv]
      by_cases hk : k2 = k
      · subst hk
        rw [if_pos rfl, lookupD_cons, if_pos rfl]
      · rw [if_neg hk, lookupD_cons, if_neg hk, ih hrest]

theorem mem_keys_dropKind (K : EntryKind) (m : DIndex) (a : String)
    (h : a ∈ (dropKind K m).map Prod.fst) : a ∈ m.map Prod.fst := by
  induction m with
  | nil => simpa [dropKind_nil] using h
  | cons p rest ih =>
    obtain ⟨k2, v⟩ := p
    rw [dropKind_cons] at h
    by_cases hv : v.filter (fun e => e.kind ≠ K) = []
    · rw [if_pos hv] at h
      exact List.mem_cons_of_mem _ (ih h)
    · rw [if_neg hv, List.map_cons, List.mem_cons] at h
      rcases h with h | h
      · exact List.mem_cons.mpr (Or.inl h)
      · exact List.mem_cons_of_mem _ (ih h)

theorem nodup_keys_dropKind (K : EntryKind) (m : DIndex)
    (h : (m.map Prod.fst).Nodup) : ((dropKind K m).map Prod.fst).Nodup := by
  induction m with
  | nil => simp [dropKind_nil]
  | cons p rest ih =>
    obtain ⟨k2, v⟩ := p
    rw [List.map_cons, List.nodup_cons] at h
    obtain ⟨hk2, hrest⟩ := h
    rw [dropKind_cons]
    by_cases hv : v.filter (fun e => e.kind ≠ K) = []
    · rw [if_pos hv]
      exact ih hrest
    · rw [if_neg hv, List.map_cons, List.nodup_cons]
      refine ⟨?_, ih hrest⟩
      intro hmem
      exact hk2 (mem_keys_dropKind K rest _ hmem)

theorem values_ne_nil_dropKind (K : EntryKind) (m : DIndex) :
    ∀ p ∈ dropKind K m, p.2 ≠ ([] : List Entry) := by
  induction m with
  | nil => simp [dropKind_nil]
  | cons q rest ih =>
    obtain ⟨k2, v⟩ := q
    intro p hp
    rw [dropKind_cons] at hp
    by_cases hv : v.filter (fun e => e.kind ≠ K) = []
    · rw [if_pos hv] at hp
      exact ih p hp
    · rw [if_neg hv, List.mem_cons] at hp
      rcases hp with hp | hp
      · subst hp; exact hv
      · exact ih p hp

theorem values_ne_nil_objAppendList (m : DIndex) (k : String)
    (l : List Entry) (hl : l ≠ []) (h : ∀ p ∈ m, p.2 ≠ ([] : List Entry)) :
    ∀ p ∈ objAppendList m k l, p.2 ≠ ([] : List Entry) := by
  induction m with
  | nil =>
    intro p hp
    rw [objAppendList, List.mem_singleton] at hp
    subst hp
    exact hl
  | cons q rest ih =>
    obtain ⟨k2, v⟩ := q
    intro p hp
    by_cases h2 : k2 = k
    · subst h2
      rw [objAppendList, if_pos rfl, List.mem_cons] at hp
      rcases hp with hp | hp
      · subst hp
        simp [hl]
      · exact h p (List.mem_cons_of_mem _ hp)
    · rw [objAppendList, if_neg h2, List.mem_cons] at hp
      rcases hp with hp | hp
      · subst hp
        exact h _ (List.mem_cons_self _ _)
      · exact ih (fun q hq => h q (List.mem_cons_of_mem _ hq)) p hp

theorem lookupD_addBuckets (nb : DIndex) (m : DIndex) (k : String)
    (h : (nb.map Prod.fst).Nodup) :
    lookupD (addBuckets nb m) k = lookupD m k ++ lookupD nb k := by
  induction nb generalizing m with
  | nil => simp [addBuckets, lookupD, objGet]
  | cons p nbs ih =>
    obtain ⟨k1, l1⟩ := p
    rw [List.map_cons, List.nodup_cons] at h
    obtain ⟨hk1, hnbs⟩ := h
    have hstep : addBuckets ((k1, l1) :: nbs) m
        = addBuckets nbs (objAppendList m k1 l1) := rfl
    rw [hstep, ih _ hnbs, lookupD_objAppendList, lookupD_cons]
    by_cases hk : k1 = k
    · subst hk
      rw [if_pos rfl, if_pos rfl, lookupD_of_not_mem_keys nbs k1 hk1,
        List.append_nil]
    · rw [if_neg hk, if_neg hk]

theorem values_ne_nil_addBuckets (nb : DIndex) (m : DIndex)
    (hnb : ∀ p ∈ nb, p.2 ≠ ([] : List Entry))
    (hm : ∀ p ∈ m, p.2 ≠ ([] : List Entry)) :
    ∀ p ∈ addBuckets nb m, p.2 ≠ ([] : List Entry) := by
  induction nb generalizing m with
  | nil => simpa [addBuckets] using hm
  | cons p nbs ih =>
    obtain ⟨k1, l1⟩ := p
    have hstep : addBuckets ((k1, l1) :: nbs) m
        = addBuckets nbs (objAppendList m k1 l1) := rfl
    rw [hstep]
    exact ih (objAppendList m k1 l1)
      (fun q hq => hnb q (List.mem_cons_of_mem _ hq))
      (values_ne_nil_objAppendList m k1 l1
        (hnb _ (List.mem_cons_self _ _)) hm)

theorem nodup_keys_addBuckets (nb : DIndex) (m : DIndex)
    (h : (m.map Prod.fst).Nodup) :
    ((addBuckets nb m).map Prod.fst).Nodup := by
  induction nb generalizing m with
  | nil => simpa [addBuckets] using h
  | cons p nbs ih =>
    obtain ⟨k1, l1⟩ := p
    have hstep : addBuckets ((k1, l1) :: nbs) m
        = addBuckets nbs (objAppendList m k1 l1) := rfl
    rw [hstep]
    exact ih _ (nodup_keys_objAppendList m k1 l1 h)

/-- The merge step at every key: the old entries of other kinds, in their
old order, followed by the new buckets. -/
theorem lookupD_mergeDeadlines (K : EntryKind) (nb m : DIndex) (k : String)
    (hnb : (nb.map Prod.fst).Nodup) (hm : (m.map Prod.fst).Nodup) :
    lookupD (mergeDeadlines K nb m) k
    = (lookupD m k).filter (fun e => e.kind ≠ K) ++ lookupD nb k := by
  rw [mergeDeadlines, lookupD_addBuckets _ _ _ hnb,
    lookupD_dropKind _ _ _ hm]

theorem nodup_keys_mergeDeadlines (K : EntryKind) (nb m : DIndex)
    (hm : (m.map Prod.fst).Nodup) :
    ((mergeDeadlines K nb m).map Prod.fst).Nodup :=
  nodup_keys_addBuckets nb _ (nodup_keys_dropKind K m hm)

theorem kind_of_mem_buildBuckets (tz : Int) (K : EntryKind)
    (recs : List Record) (k : String) (e : Entry)
    (h : e ∈ lookupD (buildBuckets tz K recs) k) : e.kind = K := by
  rw [lookupD_buildBuckets] at h
  obtain ⟨r, _, rfl⟩ := List.mem_map.mp h
  rfl

theorem filter_kind_both (l : List Entry) :
    (l.filter (fun e => e.kind ≠ EntryKind.Project)).filter
      (fun e => e.kind ≠ EntryKind.Task) = [] := by
  induction l with
  | nil => rfl
  | cons e es ih =>
    cases he : e.kind with
    | Project =>
      rw [List.filter_cons, if_neg (by simp [he])]
      exact ih
    | Task =>
      rw [List.filter_cons, if_pos (by simp [he]), List.filter_cons,
        if_neg (by simp [he])]
      exact ih

/-- The state of the deadline index after both revised-CalendarScreen
callbacks ran on the latest snapshots: at every key, the project bucket
followed by the (incomplete-) task bucket, independently of the previous
state. -/
theorem lookupD_rebuildIndex (tz : Int) (projects tasks : List Record)
    (prev : DIndex) (k : String) (h : (prev.map Prod.fst).Nodup) :
    lookupD (rebuildIndex tz projects tasks prev) k
    = lookupD (buildBuckets tz .Project projects) k ++
      lookupD (buildBuckets tz .Task
        (tasks.filter (fun t => t.completed = false))) k := by
  rw [rebuildIndex,
    lookupD_mergeDeadlines _ _ _ _ (nodup_keys_buildBuckets _ _ _)
      (nodup_keys_mergeDeadlines _ _ _ h),
    lookupD_mergeDeadlines _ _ _ _ (nodup_keys_buildBuckets _ _ _) h,
    List.filter_append, filter_kind_both, List.nil_append]
  congr 1
  refine List.filter_eq_self.mpr ?_
  intro e he
  have hk := kind_of_mem_buildBuckets tz .Project projects k e he
  simp [hk]

theorem nodup_keys_rebuildIndex (tz : Int) (projects tasks : List Record)
    (prev : DIndex) (h : (prev.map Prod.fst).Nodup) :
    ((rebuildIndex tz projects tasks prev).map Prod.fst).Nodup :=
  nodup_keys_mergeDeadlines _ _ _ (nodup_keys_mergeDeadlines _ _ _ h)

/-! ## Summary-accumulation lemmas -/

theorem objGetC_bumpCount (m : CIndex) (pid : String) (c : Bool)
    (pid2 : String) :
    objGetC (bumpCount m pid c) pid2 =
      if pid = pid2 then
        some ⟨((objGetC m pid2).getD ⟨0, 0⟩).total + 1,
              ((objGetC m pid2).getD ⟨0, 0⟩).completed +
                (if c then 1 else 0)⟩
      else objGetC m pid2 := by
  induction m with
  | nil =>
    by_cases h : pid = pid2 <;> simp [bumpCount, objGetC, h]
  | cons p rest ih =>
    obtain ⟨k3, v⟩ := p
    by_cases h3 : k3 = pid
    · subst h3
      by_cases h : k3 = pid2 <;> simp [bumpCount, objGetC, h]
    · by_cases h2 : k3 = pid2
      · subst h2
        have hne : ¬ pid = k3 := fun hh => h3 hh.symm
        simp [bumpCount, objGetC, h3, hne, ih]
      · simp [bumpCount, objGetC, h3, h2, ih]

theorem buildCounts_total_go (ts : List Record) (m : CIndex) (pid : String) :
    ((objGetC (ts.foldl
      (fun m t =>
        match t.projectId with
        | some pid => bumpCount m pid t.completed
        | none => m) m) pid).getD ⟨0, 0⟩).total
    = ((objGetC m pid).getD ⟨0, 0⟩).total +
      (ts.filter (fun t => t.projectId = some pid)).length := by
  induction ts generalizing m with
  | nil => simp
  | cons t ts' ih =>
    simp only [List.foldl_cons, List.filter_cons]
    cases hpid : t.projectId with
    | none => simp [hpid, ih]
    | some pid2 =>
      by_cases hp : pid2 = pid
      · subst hp
        simp only [hpid, decide_eq_true_eq, Option.some.injEq]
        rw [ih, objGetC_bumpCount, if_pos rfl]
        simp
        omega
      · have hne : ¬ (some pid2 = some pid) := by simp [hp]
        simp only [hpid, decide_eq_true_eq]
        rw [ih, objGetC_bumpCount, if_neg hp]
        simp [hne]

theorem buildCounts_completed_go (ts : List Record) (m : CIndex)
    (pid : String) :
    ((objGetC (ts.foldl
      (fun m t =>
        match t.projectId with
        | some pid => bumpCount m pid t.completed
        | none => m) m) pid).getD ⟨0, 0⟩).completed
    = ((objGetC m pid).getD ⟨0, 0⟩).completed +
      (ts.filter (fun t => t.projectId = some pid ∧ t.completed = true)).length := by
  induction ts generalizing m with
  | nil => simp
  | cons t ts' ih =>
    simp only [List.foldl_cons, List.filter_cons]
    cases hpid : t.projectId with
    | none => simp [hpid, ih]
    | some pid2 =>
      by_cases hp : pid2 = pid
      · subst hp
        simp only [hpid, Option.some.injEq]
        rw [ih, objGetC_bumpCount, if_pos rfl]
        by_cases hc : t.completed <;> simp [hc] <;> omega
      · have hne : ¬ (some pid2 = some pid) := by simp [hp]
        simp only [hpid]
        rw [ih, objGetC_bumpCount, if_neg hp]
        simp [hne]

/-- The `total` of a project's summary counts exactly the tasks carrying that
`projectId`. -/
theorem buildCounts_total (ts : List Record) (pid : String) :
    ((objGetC (buildCounts ts) pid).getD ⟨0, 0⟩).total
    = (ts.filter (fun t => t.projectId = some pid)).length := by
  have h := buildCounts_total_go ts [] pid
  simpa [buildCounts, objGetC] using h

/-- The `completed` of a project's summary counts exactly the completed tasks
carrying that `projectId`. -/
theorem buildCounts_completed (ts : List Record) (pid : String) :
    ((objGetC (buildCounts ts) pid).getD ⟨0, 0⟩).completed
    = (ts.filter (fun t => t.projectId = some pid ∧ t.completed = true)).length := by
  have h := buildCounts_completed_go ts [] pid
  simpa [buildCounts, objGetC] using h

theorem length_filter_imp_le {α : Type} (l : List α) (p q : α → Bool)
    (h : ∀ a, p a = true → q a = true) :
    (l.filter p).length ≤ (l.filter q).length := by
  induction l with
  | nil => simp
  | cons a l' ih =>
    rw [List.filter_cons, List.filter_cons]
    by_cases hp : p a = true
    · rw [if_pos hp, if_pos (h a hp)]
      simpa using ih
    · rw [if_neg hp]
      by_cases hq : q a = true
      · rw [if_pos hq]
        exact le_trans ih (by simp)
      · rw [if_neg hq]
        exact ih

theorem buildCounts_completed_le_total (ts : List Record) (pid : String) :
    ((objGetC (buildCounts ts) pid).getD ⟨0, 0⟩).completed
    ≤ ((objGetC (buildCounts ts) pid).getD ⟨0, 0⟩).total := by
  rw [buildCounts_total, buildCounts_completed]
  refine length_filter_imp_le ts _ _ ?_
  intro a ha
  simp only [decide_eq_true_eq] at ha ⊢
  exact ha.1

theorem roundPct_le_100 (c t : Nat) (hc : c ≤ t) (ht : t ≠ 0) :
    roundPct c t ≤ 100 := by
  rw [roundPct]
  have h2t : 0 < 2 * t := by omega
  have := (Nat.div_lt_iff_lt_mul h2t).mpr (show 200 * c + t < 101 * (2 * t) by omega)
  omega

/-! ## Claim theorems -/

/-- C6: looking a date key up in the deadline index is a pure map lookup:
an absent key yields the empty list (never an error), and a present key
yields its bucket unchanged. -/
theorem C6_lookup_total (m : DIndex) (k : String) :
    (objGet m k = none → lookupD m k = []) ∧
    (∀ l, objGet m k = some l → lookupD m k = l) := by
  constructor
  · intro h
    rw [lookupD_eq, h]
    rfl
  · intro l h
    rw [lookupD_eq, h]
    rfl

/-- Witness for C6: a concrete index with one key; lookup of an unknown
key returns `[]`, lookup of the present key returns its bucket. -/
theorem C6_witness :
    lookupD [("2025-10-15", [exEntry])] "2025-10-14" = [] ∧
    lookupD [("2025-10-15", [exEntry])] "2025-10-15" = [exEntry] :=
  ⟨(C6_lookup_total [("2025-10-15", [exEntry])] "2025-10-14").1 (by decide),
   (C6_lookup_total [("2025-10-15", [exEntry])] "2025-10-15").2 [exEntry]
     (by decide)⟩

/-- C1: a deadline that normalises to a valid date (instant `t`) is keyed
by the LOCAL calendar day of `t` (the key is built from the local
year/month/day components, not the UTC day), the key depends only on the
instant — not on which of the three representations carried it — and the
index rebuild places the record's entry in exactly that bucket. -/
theorem C1_local_day_key (tz t : Int) (d : JSDeadline)
    (h : dateOfDeadline d = some t) :
    toDateString tz d = some (localDayKey tz t) ∧
    (∀ d2, dateOfDeadline d2 = some t →
      toDateString tz d2 = toDateString tz d) ∧
    (∀ (K : EntryKind) (recs : List Record) (r : Record),
      r ∈ recs → r.deadline = d →
      entryOf K r ∈ lookupD (buildBuckets tz K recs) (localDayKey tz t)) ∧
    (∀ (K : EntryKind) (recs : List Record) (r : Record) (k : String),
      r.deadline = d →
      entryOf K r ∈ lookupD (buildBuckets tz K recs) k →
      k = localDayKey tz t) := by
  have h1 : toDateString tz d = some (localDayKey tz t) := by
    rw [toDateString, h]
  refine ⟨h1, ?_, ?_, ?_⟩
  · intro d2 h2
    rw [toDateString, h2, h1]
  · intro K recs r hr hrd
    rw [lookupD_buildBuckets]
    refine List.mem_map.mpr ⟨r, ?_, rfl⟩
    refine List.mem_filter.mpr ⟨hr, ?_⟩
    simp [hrd, h1]
  · intro K recs r k hrd he
    rw [lookupD_buildBuckets] at he
    obtain ⟨r2, hr2, he2⟩ := List.mem_map.mp he
    have hd2 : r2.deadline = r.deadline :=
      congrArg Entry.deadline he2
    have h2 := (List.mem_filter.mp hr2).2
    rw [hd2, hrd] at h2
    simp only [decide_eq_true_eq, h1, Option.some.injEq] at h2
    exact h2.symm

/-- Witness for C1, at an instant (2025-10-14T23:30Z) whose local day in
a UTC+2 zone (2025-10-15) differs from its UTC day (2025-10-14): the
local key is chosen, and the `Date` and timestamp-like representations of
the same instant produce the same key. -/
theorem C1_witness :
    toDateString 120 (JSDeadline.date (some 1760484600000))
      = some (localDayKey 120 1760484600000) ∧
    toDateString 120 (JSDeadline.timestampLike 1760484600000)
      = toDateString 120 (JSDeadline.date (some 1760484600000)) ∧
    localDayKey 120 1760484600000 = "2025-10-15" ∧
    utcDayKey 1760484600000 = "2025-10-14" :=
  ⟨(C1_local_day_key 120 1760484600000 (JSDeadline.date (some 1760484600000))
      rfl).1,
   (C1_local_day_key 120 1760484600000 (JSDeadline.date (some 1760484600000))
      rfl).2.1 (JSDeadline.timestampLike 1760484600000) rfl,
   by decide, by decide⟩

/-- C4: a deadline that does not normalise to a valid date (null,
undefined, or an unparsable value) makes `toDateString` return `null`
without throwing, and no entry carrying that deadline appears in any
bucket of the built index. -/
theorem C4_invalid_dropped (tz : Int) (d : JSDeadline)
    (h : dateOfDeadline d = none) :
    toDateString tz d = none ∧
    ∀ (K : EntryKind) (recs : List Record) (k : String) (e : Entry),
      e ∈ lookupD (buildBuckets tz K recs) k → e.deadline ≠ d := by
  have h1 : toDateString tz d = none := by rw [toDateString, h]
  refine ⟨h1, ?_⟩
  intro K recs k e he hed
  rw [lookupD_buildBuckets] at he
  obtain ⟨r, hr, rfl⟩ := List.mem_map.mp he
  have h2 := (List.mem_filter.mp hr).2
  have h3 : r.deadline = d := hed
  rw [h3] at h2
  simp [h1] at h2

/-- Witness for C4: the spec's scenario string `"not-a-date"` resolves to
no date, and a concretely built bucket entry never carries it. -/
theorem C4_witness :
    toDateString 0 (JSDeadline.str "not-a-date") = none ∧
    (entryOf EntryKind.Task exTask1970).deadline ≠
      JSDeadline.str "not-a-date" :=
  ⟨(C4_invalid_dropped 0 (JSDeadline.str "not-a-date") (by decide)).1,
   (C4_invalid_dropped 0 (JSDeadline.str "not-a-date") (by decide)).2
     EntryKind.Task [exTask1970] "1970-01-01"
     (entryOf EntryKind.Task exTask1970) (by decide)⟩

/-- C3: both `calculateProgress` implementations return 0 for a project
with no tasks and `round(completed/total·100)` otherwise, and the result
is always between 0 and 100 (0 is automatic in `Nat`). -/
theorem C3_progress_bounds (tasks : List Record) :
    (tasks.length = 0 → calculateProgressT tasks = 0) ∧
    (tasks.length ≠ 0 → calculateProgressT tasks
      = roundPct (tasks.filter (fun t => t.completed)).length tasks.length) ∧
    calculateProgressT tasks ≤ 100 ∧
    ∀ pid,
      calculateProgressP (buildCounts tasks) pid ≤ 100 ∧
      calculateProgressP (buildCounts tasks) pid =
        (if (tasks.filter (fun t => t.projectId = some pid)).length = 0 then 0
         else roundPct
           (tasks.filter
             (fun t => t.projectId = some pid ∧ t.completed = true)).length
           (tasks.filter (fun t => t.projectId = some pid)).length) := by
  refine ⟨?_, ?_, ?_, ?_⟩
  · intro h
    rw [calculateProgressT, if_pos h]
  · intro h
    rw [calculateProgressT, if_neg h]
  · rw [calculateProgressT]
    by_cases h : tasks.length = 0
    · rw [if_pos h]
      omega
    · rw [if_neg h]
      exact roundPct_le_100 _ _ (List.length_filter_le _ _) h
  · intro pid
    have ht := buildCounts_total tasks pid
    have hc := buildCounts_completed tasks pid
    have hle := buildCounts_completed_le_total tasks pid
    cases hobj : objGetC (buildCounts tasks) pid with
    | none =>
      rw [hobj] at ht hc
      simp only [Option.getD_none] at ht hc
      constructor
      · simp only [calculateProgressP, hobj]
        omega
      · simp only [calculateProgressP, hobj]
        rw [if_pos (by omega)]
    | some s =>
      rw [hobj] at ht hc hle
      simp only [Option.getD_some] at ht hc hle
      constructor
      · simp only [calculateProgressP, hobj]
        by_cases hz : s.total = 0
        · rw [if_pos hz]
          omega
        · rw [if_neg hz]
          exact roundPct_le_100 _ _ hle hz
      · simp only [calculateProgressP, hobj]
        rw [← ht, ← hc]

/-- Witness for C3: the empty collection yields 0, and the spec's
two-task scenario yields a percentage within bounds. -/
theorem C3_witness :
    calculateProgressT [] = 0 ∧
    calculateProgressT [exP1Done, exP1Todo] ≤ 100 ∧
    calculateProgressP (buildCounts [exP1Done, exP1Todo]) "p1" ≤ 100 :=
  ⟨(C3_progress_bounds []).1 rfl,
   (C3_progress_bounds [exP1Done, exP1Todo]).2.2.1,
   ((C3_progress_bounds [exP1Done, exP1Todo]).2.2.2 "p1").1⟩

/-- C5: the summarisation maps each project id to the number of its
tasks and the number of those completed; on the spec's two-task scenario
it yields exactly `{p1: {total: 2, completed: 1, percentage: 50}}`. -/
theorem C5_summarize_counts (ts : List Record) (pid : String) :
    ((objGetC (buildCounts ts) pid).getD ⟨0, 0⟩).total
      = (ts.filter (fun t => t.projectId = some pid)).length ∧
    ((objGetC (buildCounts ts) pid).getD ⟨0, 0⟩).completed
      = (ts.filter
          (fun t => t.projectId = some pid ∧ t.completed = true)).length ∧
    buildCounts [exP1Done, exP1Todo] = [("p1", ⟨2, 1⟩)] ∧
    summarize [exP1Done, exP1Todo] "p1" = (⟨2, 1⟩, 50) :=
  ⟨buildCounts_total ts pid, buildCounts_completed ts pid,
   by decide, by decide⟩

/-- C7: the index rebuild and the summarisation are deterministic pure
functions of the input collections: rebuilding on top of a rebuilt state
changes no bucket, the buckets never depend on the previous state, and
recomputing the summary from unchanged tasks yields an equal result. -/
theorem C7_pure_deterministic (tz : Int) (ps ts : List Record)
    (prev : DIndex) (h : (prev.map Prod.fst).Nodup) :
    (∀ k, lookupD (rebuildIndex tz ps ts (rebuildIndex tz ps ts prev)) k
      = lookupD (rebuildIndex tz ps ts prev) k) ∧
    (∀ k, lookupD (rebuildIndex tz ps ts prev) k
      = lookupD (rebuildIndex tz ps ts []) k) ∧
    buildCounts ts = buildCounts ts := by
  refine ⟨?_, ?_, rfl⟩
  · intro k
    rw [lookupD_rebuildIndex _ _ _ _ _
        (nodup_keys_rebuildIndex _ _ _ _ h),
      lookupD_rebuildIndex _ _ _ _ _ h]
  · intro k
    rw [lookupD_rebuildIndex _ _ _ _ _ h,
      lookupD_rebuildIndex _ _ _ _ _ (by simp)]

/-- Witness for C7: with a concrete non-empty previous state, rebuilding
twice leaves the 1970-01-01 bucket exactly as one rebuild does. -/
theorem C7_witness :
    lookupD
      (rebuildIndex 0 [exProjOct] [exTask1970]
        (rebuildIndex 0 [exProjOct] [exTask1970]
          [("stale", [exEntry])])) "1970-01-01"
    = lookupD
        (rebuildIndex 0 [exProjOct] [exTask1970]
          [("stale", [exEntry])]) "1970-01-01" :=
  (C7_pure_deterministic 0 [exProjOct] [exTask1970]
    [("stale", [exEntry])] (by decide)).1 "1970-01-01"

/-- C9: in the revised calendar variant the task subscription filters
`completed == false`, so every Task-kind entry anywhere in the rebuilt
deadline index has `completed = false`, whatever the previous state. -/
theorem C9_tasks_incomplete (tz : Int) (ps ts : List Record)
    (prev : DIndex) (h : (prev.map Prod.fst).Nodup) (k : String) (e : Entry)
    (he : e ∈ lookupD (rebuildIndex tz ps ts prev) k)
    (hk : e.kind = EntryKind.Task) :
    e.completed = false := by
  rw [lookupD_rebuildIndex _ _ _ _ _ h] at he
  rcases List.mem_append.mp he with hp | ht
  · have hpk := kind_of_mem_buildBuckets tz .Project ps k e hp
    rw [hpk] at hk
    cases hk
  · rw [lookupD_buildBuckets] at ht
    obtain ⟨r, hr, rfl⟩ := List.mem_map.mp ht
    have h2 := (List.mem_filter.mp (List.mem_filter.mp hr).1).2
    simpa [entryOf] using h2

/-- Witness for C9: the epoch task's entry sits in the rebuilt index and
is incomplete. -/
theorem C9_witness :
    (entryOf EntryKind.Task exTask1970).completed = false :=
  C9_tasks_incomplete 0 [exProjOct] [exTask1970] [] (by decide)
    "1970-01-01" (entryOf EntryKind.Task exTask1970) (by decide) rfl

/-- C10: one merge step touches only entries of its own kind — at every
key the other-kind entries are exactly those of the previous state, the
own-kind entries are exactly the new buckets — and after the merge no
key maps to an empty list. -/
theorem C10_merge_frame (tz : Int) (K : EntryKind) (recs : List Record)
    (m : DIndex) (h : (m.map Prod.fst).Nodup) :
    (∀ k, (lookupD (mergeDeadlines K (buildBuckets tz K recs) m) k).filter
        (fun e => e.kind ≠ K)
      = (lookupD m k).filter (fun e => e.kind ≠ K)) ∧
    (∀ k, (lookupD (mergeDeadlines K (buildBuckets tz K recs) m) k).filter
        (fun e => e.kind = K)
      = lookupD (buildBuckets tz K recs) k) ∧
    (∀ p ∈ mergeDeadlines K (buildBuckets tz K recs) m,
      p.2 ≠ ([] : List Entry)) := by
  refine ⟨?_, ?_, ?_⟩
  · intro k
    rw [lookupD_mergeDeadlines _ _ _ _ (nodup_keys_buildBuckets _ _ _) h,
      List.filter_append]
    have h1 : ((lookupD m k).filter (fun e => e.kind ≠ K)).filter
        (fun e => e.kind ≠ K) = (lookupD m k).filter (fun e => e.kind ≠ K) :=
      List.filter_eq_self.mpr (fun e he => (List.mem_filter.mp he).2)
    have h2 : (lookupD (buildBuckets tz K recs) k).filter
        (fun e => e.kind ≠ K) = [] := by
      rw [List.filter_eq_nil]
      intro e he
      have := kind_of_mem_buildBuckets tz K recs k e he
      simp [this]
    rw [h1, h2, List.append_nil]
  · intro k
    rw [lookupD_mergeDeadlines _ _ _ _ (nodup_keys_buildBuckets _ _ _) h,
      List.filter_append]
    have h1 : ((lookupD m k).filter (fun e => e.kind ≠ K)).filter
        (fun e => e.kind = K) = [] := by
      rw [List.filter_eq_nil]
      intro e he
      have h3 := (List.mem_filter.mp he).2
      simp only [ne_eq, decide_not, Bool.not_eq_true',
        decide_eq_false_iff_not] at h3
      simp [h3]
    have h2 : (lookupD (buildBuckets tz K recs) k).filter
        (fun e => e.kind = K) = lookupD (buildBuckets tz K recs) k := by
      refine List.filter_eq_self.mpr ?_
      intro e he
      have := kind_of_mem_buildBuckets tz K recs k e he
      simp [this]
    rw [h1, h2, List.nil_append]
  · exact values_ne_nil_addBuckets _ _
      (values_ne_nil_buildBuckets tz K recs)
      (values_ne_nil_dropKind K m)

/-- Witness for C10: merging a project snapshot into a state holding a
Task entry leaves that Task entry exactly in place. -/
theorem C10_witness :
    (lookupD
      (mergeDeadlines EntryKind.Project
        (buildBuckets 0 EntryKind.Project [exProjOct])
        [("d", [entryOf EntryKind.Task exTask1970])]) "d").filter
      (fun e => e.kind ≠ EntryKind.Project)
    = (lookupD [("d", [entryOf EntryKind.Task exTask1970])] "d").filter
        (fun e => e.kind ≠ EntryKind.Project) :=
  (C10_merge_frame 0 EntryKind.Project [exProjOct]
    [("d", [entryOf EntryKind.Task exTask1970])] (by decide)).1 "d"

theorem compare_tail_spec (a b : Record) :
    ordOfInt (if priorityRank a.priority ≠ priorityRank b.priority
      then ((priorityRank a.priority : Int) - (priorityRank b.priority : Int))
      else
        match a.createdAt, b.createdAt with
        | some ta, some tb => tb - ta
        | _, _ => 0)
    = (if priorityRank a.priority < priorityRank b.priority then Ordering.lt
       else if priorityRank b.priority < priorityRank a.priority then
         Ordering.gt
       else
         match a.createdAt, b.createdAt with
         | some ta, some tb =>
           if tb < ta then Ordering.lt
           else if ta < tb then Ordering.gt else Ordering.eq
         | _, _ => Ordering.eq) := by
  rcases Nat.lt_trichotomy (priorityRank a.priority)
      (priorityRank b.priority) with h | h | h
  · rw [if_pos (Nat.ne_of_lt h), if_pos h, ordOfInt, if_pos (by omega)]
  · rw [if_neg (by omega), if_neg (by omega), if_neg (by omega)]
    rcases hca : a.createdAt with _ | ta <;> rcases hcb : b.createdAt with _ | tb
    · rfl
    · rfl
    · rfl
    · show ordOfInt (tb - ta)
        = if tb < ta then Ordering.lt
          else if ta < tb then Ordering.gt else Ordering.eq
      rcases Int.lt_trichotomy tb ta with h2 | h2 | h2
      · rw [if_pos h2, ordOfInt, if_pos (by omega)]
      · subst h2
        rw [if_neg (by omega), if_neg (by omega), ordOfInt,
          if_neg (by omega), if_pos (by omega)]
      · rw [if_neg (by omega), if_pos h2, ordOfInt, if_neg (by omega),
          if_neg (by omega)]
  · rw [if_pos (by omega), if_neg (by omega), if_pos h, ordOfInt,
      if_neg (by omega), if_neg (by omega)]

/-- C2: the task comparator implements exactly the composite rule —
incomplete before completed, then ascending priority rank
(urgent 0, medium 1, low 2, other/missing 3), then newest creation first
when both timestamps exist, else tied — and sorting the spec's
three-task scenario yields incomplete-urgent, incomplete-low,
completed-urgent. -/
theorem C2_task_order :
    (∀ a b : Record, ordOfInt (taskCompare a b) = specTaskOrder a b) ∧
    jsSort taskCompare [exCompletedUrgent, exIncompleteLow, exIncompleteUrgent]
      = [exIncompleteUrgent, exIncompleteLow, exCompletedUrgent] := by
  constructor
  · intro a b
    cases hac : a.completed <;> cases hbc : b.completed
    · rw [taskCompare, specTaskOrder]
      simp only [hac, hbc, ne_eq, not_true_eq_false, not_false_eq_true,
        if_false, if_true, and_false, false_and, and_true, true_and,
        ite_false, ite_true]
      exact compare_tail_spec a b
    · rw [taskCompare, specTaskOrder]
      simp [hac, hbc, ordOfInt]
    · rw [taskCompare, specTaskOrder]
      simp [hac, hbc, ordOfInt]
    · rw [taskCompare, specTaskOrder]
      simp only [hac, hbc, ne_eq, not_true_eq_false, not_false_eq_true,
        if_false, if_true, and_false, false_and, and_true, true_and,
        ite_false, ite_true]
      exact compare_tail_spec a b
  · decide

set_option maxHeartbeats 1000000 in
theorem monthMatrix_core : ∀ fd < 7, ∀ j < 4, monthMatrixOK fd (28 + j) := by
  decide

theorem firstWeekday_lt (y m : Nat) : firstWeekday y m < 7 := by
  rw [firstWeekday]
  have h1 : 0 ≤ (daysFromCivil (jsYear y) (m + 1) 1 + 4) % 7 :=
    Int.emod_nonneg _ (by decide)
  have h2 : (daysFromCivil (jsYear y) (m + 1) 1 + 4) % 7 < 7 :=
    Int.emod_lt_of_pos _ (by decide)
  omega

theorem daysInMonth_bounds (y : Int) (m : Nat) (hm : m < 12) :
    28 ≤ daysInMonth y m ∧ daysInMonth y m ≤ 31 := by
  interval_cases m <;> simp [daysInMonth] <;> (try split) <;> omega

/-- C8: for every year and month, `getMonthMatrix` yields rows of exactly
7 cells whose non-null cells, read in row-major order, are the dates
1 … last-day-of-month ascending, with as many leading nulls as the
weekday index of the month's first day, and nulls confined to the first
and last rows. -/
theorem C8_month_matrix (y m : Nat) (hm : m < 12) :
    (∀ row ∈ getMonthMatrix y m, row.length = 7) ∧
    (getMonthMatrix y m).join.filterMap id
      = List.range' 1 (daysInMonth (jsYear y) m) ∧
    ((getMonthMatrix y m).join.takeWhile (fun c => c.isNone)).length
      = firstWeekday y m ∧
    ∀ row ∈ ((getMonthMatrix y m).drop 1).dropLast, ∀ c ∈ row,
      c.isSome = true := by
  obtain ⟨h1, h2⟩ := daysInMonth_bounds (jsYear y) m hm
  obtain ⟨j, hj, hrep⟩ : ∃ j, j < 4 ∧ daysInMonth (jsYear y) m = 28 + j :=
    ⟨daysInMonth (jsYear y) m - 28, by omega, by omega⟩
  have hcore := monthMatrix_core (firstWeekday y m) (firstWeekday_lt y m) j hj
  rw [getMonthMatrix, hrep]
  exact hcore

/-- Witness for C8: October 2025 (year 2025, month index 9). -/
theorem C8_witness :
    (∀ row ∈ getMonthMatrix 2025 9, row.length = 7) ∧
    (getMonthMatrix 2025 9).join.filterMap id
      = List.range' 1 (daysInMonth (jsYear 2025) 9) :=
  ⟨(C8_month_matrix 2025 9 (by omega)).1,
   (C8_month_matrix 2025 9 (by omega)).2.1⟩

end ProjectPro
